import Mathlib

/-!
Shallow embedding of the dimland overlay program (src/main.rs): the
pixel-buffer synthesis inside DimlandData.create_view, the per-view
configure state machine (LayerShellHandler.configure and DimlandView.draw),
the output registry operations (OutputHandler), and the dispatch loop of
main.  All u32 arithmetic of the source is modelled on Nat with explicit
reduction modulo 2^32 wherever the source operation can wrap.
-/

namespace Dimland

/-- 2^32, the modulus of u32 arithmetic. -/
def U32MOD : Nat := 4294967296

/-- Wrapping u32 subtraction (release-mode semantics of Rust u32 `-`). -/
def wsub (a b : Nat) : Nat := (a % U32MOD + (U32MOD - b % U32MOD)) % U32MOD

/-- Wrapping u32 addition. -/
def wadd (a b : Nat) : Nat := (a + b) % U32MOD

/-- Wrapping u32 squaring, modelling `v.pow(2)`. -/
def wpow2 (a : Nat) : Nat := a ^ 2 % U32MOD

/-- The alpha byte `(self.alpha * 255.0) as u32` (main.rs line 181): truncation
of alpha * 255 toward zero, negative values clamped to 0 by the saturating
Rust float-to-int cast.  Alpha is modelled as a rational; the concrete alpha
of the claims (0.5) and 255.0 and their product are exactly representable in
f32, so the f32 computation agrees with the rational one there. -/
def alphaByte (a : ℚ) : Nat := (⌊a * 255⌋).toNat

/-- Base pixel word: 0x00000000 with the alpha byte or-ed into bits 24..31
(main.rs lines 180-182). -/
def baseColor (a : ℚ) : Nat := (alphaByte a <<< 24) % U32MOD

/-- Top-left corner test (main.rs lines 184-186). -/
def d1cond (r x y : Nat) : Bool :=
  decide (x < r) && decide (y < r)
    && decide (wadd (wpow2 (wsub r x)) (wpow2 (wsub r y)) > wpow2 r)

/-- Top-right corner test (main.rs lines 187-190). -/
def d2cond (width r x y : Nat) : Bool :=
  decide (x > wsub width r) && decide (y < r)
    && decide (wadd (wpow2 (wsub x (wsub width r))) (wpow2 (wsub r y)) > wpow2 r)

/-- Bottom-left corner test (main.rs lines 191-194). -/
def d3cond (height r x y : Nat) : Bool :=
  decide (x < r) && decide (y > wsub height r)
    && decide (wadd (wpow2 (wsub r x)) (wpow2 (wsub y (wsub height r))) > wpow2 r)

/-- Bottom-right corner test (main.rs lines 195-198). -/
def d4cond (width height r x y : Nat) : Bool :=
  decide (x > wsub width r) && decide (y > wsub height r)
    && decide (wadd (wpow2 (wsub x (wsub width r))) (wpow2 (wsub y (wsub height r))) > wpow2 r)

/-- The full corner condition of create_view: the disjunction of the four
corner tests, in source order. -/
def cornerCond (width height r x y : Nat) : Bool :=
  d1cond r x y || d2cond width r x y || d3cond height r x y || d4cond width height r x y

/-- Color of the pixel at (x, y): 0xFF000000 when the corner condition holds,
otherwise the base color (main.rs lines 180-201). -/
def pixelColor (width height : Nat) (a : ℚ) (r x y : Nat) : Nat :=
  if cornerCond width height r x y then 0xFF000000 else baseColor a

/-- Exact-arithmetic rendering of the source guard, with the strict
bounding-box comparisons of the code (x > width - radius, etc.); meaningful
when radius ≤ width and radius ≤ height, where no u32 subtraction wraps. -/
def strictCut (width height r x y : Nat) : Prop :=
  (x < r ∧ y < r ∧ (r - x) ^ 2 + (r - y) ^ 2 > r ^ 2)
  ∨ (width - r < x ∧ y < r ∧ (x - (width - r)) ^ 2 + (r - y) ^ 2 > r ^ 2)
  ∨ (x < r ∧ height - r < y ∧ (r - x) ^ 2 + (y - (height - r)) ^ 2 > r ^ 2)
  ∨ (width - r < x ∧ height - r < y
      ∧ (x - (width - r)) ^ 2 + (y - (height - r)) ^ 2 > r ^ 2)

/-- The corner cut region following the words of the spec: for each corner a
full radius-by-radius bounding box (the right and bottom boxes being the
mirror images of the top-left box x < radius, y < radius) together with the
squared-distance-to-rounding-center test.  This is the spec-side definition
of the refinement claim C1, to be compared with cornerCond. -/
def specCornerCut (width height r x y : Nat) : Prop :=
  (x < r ∧ y < r ∧ (r - x) ^ 2 + (r - y) ^ 2 > r ^ 2)
  ∨ (width - r ≤ x ∧ y < r ∧ (x - (width - r)) ^ 2 + (r - y) ^ 2 > r ^ 2)
  ∨ (x < r ∧ height - r ≤ y ∧ (r - x) ^ 2 + (y - (height - r)) ^ 2 > r ^ 2)
  ∨ (width - r ≤ x ∧ height - r ≤ y
      ∧ (x - (width - r)) ^ 2 + (y - (height - r)) ^ 2 > r ^ 2)

/-- Underflow-freedom of the corner-condition evaluation at one pixel,
following the source's left-to-right short-circuit evaluation order: the
top-left test only subtracts under its own guards; if it is false,
width - radius is evaluated (requiring radius ≤ width); if the top-right
test is true the disjunction short-circuits, otherwise height - radius is
evaluated exactly when the bottom-left guard x < radius or the bottom-right
guard x > width - radius is reached with a true first conjunct (requiring
radius ≤ height there); all remaining subtractions sit behind their own
guards. -/
def underflowFreePixel (width height r x y : Nat) : Prop :=
  d1cond r x y = true
    ∨ (r ≤ width
        ∧ (d2cond width r x y = true ∨ ((x < r ∨ width - r < x) → r ≤ height)))

instance specCornerCut.instDec (width height r x y : Nat) :
    Decidable (specCornerCut width height r x y) := by
  unfold specCornerCut
  infer_instance

instance underflowFreePixel.instDec (width height r x y : Nat) :
    Decidable (underflowFreePixel width height r x y) := by
  unfold underflowFreePixel
  infer_instance

/-- The four little-endian bytes of a u32 word, modelling to_le_bytes. -/
def toLEBytes (c : Nat) : List Nat :=
  [c % 256, c / 2 ^ 8 % 256, c / 2 ^ 16 % 256, c / 2 ^ 24 % 256]

/-- The whole pixel buffer: width*height four-byte chunks, pixel index i
giving x = (i as u32) % width and y = (i as u32) / width
(main.rs lines 163-205). -/
def createBuffer (width height : Nat) (a : ℚ) (r : Nat) : List Nat :=
  (List.range (width * height)).flatMap fun i =>
    toLEBytes (pixelColor width height a r (i % U32MOD % width) (i % U32MOD / width))

/-- The fields of DimlandView that the claims are about; the output identity
is modelled as a natural number. -/
structure DimlandView where
  first_configure : Bool
  width : Nat
  height : Nat
  output : Nat

/-- DimlandView.new: first_configure = true, width = height = 0
(main.rs lines 222-239). -/
def createView (o : Nat) : DimlandView :=
  ⟨true, 0, 0, o⟩

/-- DimlandView.draw (main.rs lines 241-248): returns whether the
attach-and-commit is performed, namely iff first_configure is still set. -/
def draw (v : DimlandView) : Bool :=
  v.first_configure

/-- The payload of a size-confirmation (configure) event. -/
structure LayerSurfaceConfigure where
  newWidth : Nat
  newHeight : Nat

/-- Result of one configure event on a view: the updated view, the
destination size passed to viewport.set_destination, and whether the buffer
was attached during this event. -/
structure ConfigureResult where
  view : DimlandView
  destination : Nat × Nat
  attached : Bool

/-- LayerShellHandler.configure for one tracked view (main.rs lines 261-283):
width/height are updated from the payload, the viewport destination is set to
the new size, and if first_configure is set, draw runs and the flag is
cleared. -/
def configureStep (v : DimlandView) (c : LayerSurfaceConfigure) : ConfigureResult :=
  let v1 : DimlandView := ⟨v.first_configure, c.newWidth, c.newHeight, v.output⟩
  if v1.first_configure then
    ⟨⟨false, v1.width, v1.height, v1.output⟩, (v1.width, v1.height), draw v1⟩
  else
    ⟨v1, (v1.width, v1.height), false⟩

/-- Folding step over configure events, accumulating the attach count. -/
def configureFold (p : DimlandView × Nat) (c : LayerSurfaceConfigure) : DimlandView × Nat :=
  ((configureStep p.1 c).view, p.2 + (if (configureStep p.1 c).attached then 1 else 0))

/-- A view's whole configure-event history, returning the final view and the
total number of buffer attaches performed. -/
def runConfigures (v : DimlandView) (es : List LayerSurfaceConfigure) : DimlandView × Nat :=
  es.foldl configureFold (v, 0)

/-- Output lifecycle notifications delivered to OutputHandler. -/
inductive OutputEvent where
  | added (o : Nat)
  | updated (o : Nat)
  | removed (o : Nat)

/-- new_output (main.rs lines 291-298): push a fresh view unconditionally. -/
def onAdded (o : Nat) (vs : List DimlandView) : List DimlandView :=
  vs ++ [createView o]

/-- The iter_mut().find + assignment of update_output: replace the first view
whose output matches the new view's output; leave the list unchanged when
there is no match. -/
def replaceFirst : List DimlandView → DimlandView → List DimlandView
  | [], _ => []
  | v :: rest, nv => if v.output = nv.output then nv :: rest else v :: replaceFirst rest nv

/-- update_output (main.rs lines 300-311): build the replacement view first,
then swap it in for the first entry with the same output. -/
def onUpdated (o : Nat) (vs : List DimlandView) : List DimlandView :=
  replaceFirst vs (createView o)

/-- output_destroyed (main.rs lines 313-320): retain the views whose output
differs. -/
def onRemoved (o : Nat) (vs : List DimlandView) : List DimlandView :=
  vs.filter fun v => v.output != o

/-- Dispatch of one output notification to the matching handler. -/
def applyOutputEvent (vs : List DimlandView) : OutputEvent → List DimlandView
  | OutputEvent.added o => onAdded o vs
  | OutputEvent.updated o => onUpdated o vs
  | OutputEvent.removed o => onRemoved o vs

/-- Process a sequence of output notifications starting from a given list. -/
def runFrom (vs : List DimlandView) (es : List OutputEvent) : List DimlandView :=
  es.foldl applyOutputEvent vs

/-- Process a sequence of output notifications starting from the empty
registry of a fresh DimlandData. -/
def runOutputEvents (es : List OutputEvent) : List DimlandView :=
  runFrom [] es

/-- The output identities of the registry entries, in order. -/
def outputsOf (vs : List DimlandView) : List Nat :=
  vs.map fun v => v.output

/-- Whether, after processing the events (given an initial presence bit), an
add of output o was observed with no subsequent remove of o. -/
def presentAfter : Bool → List OutputEvent → Nat → Bool
  | b, [], _ => b
  | b, OutputEvent.added o2 :: rest, o => presentAfter (if o2 = o then true else b) rest o
  | b, OutputEvent.updated _ :: rest, o => presentAfter b rest o
  | b, OutputEvent.removed o2 :: rest, o => presentAfter (if o2 = o then false else b) rest o

/-- An add (and no subsequent remove) of o was observed in the sequence. -/
def addedNotRemoved (es : List OutputEvent) (o : Nat) : Bool :=
  presentAfter false es o

/-- Well-formedness of a notification sequence against a registry state: no
output is announced as added while an entry for it is already present (the
toolkit announces each output once). -/
def wfEventsB : List DimlandView → List OutputEvent → Bool
  | _, [] => true
  | vs, OutputEvent.added o :: rest =>
      (vs.all fun v => v.output != o) && wfEventsB (onAdded o vs) rest
  | vs, OutputEvent.updated o :: rest => wfEventsB (onUpdated o vs) rest
  | vs, OutputEvent.removed o :: rest => wfEventsB (onRemoved o vs) rest

/-- The mutable state of DimlandData that the loop claims are about. -/
structure DimlandData where
  views : List DimlandView
  exit : Bool

/-- The events delivered by one blocking dispatch: every handler of the
source appears; a configure carries the identity of the targeted view. -/
inductive DimlandEvent where
  | closed
  | layerConfigure (target : Nat) (c : LayerSurfaceConfigure)
  | outputAdded (o : Nat)
  | outputUpdated (o : Nat)
  | outputRemoved (o : Nat)
  | frame
  | scaleFactorChanged
  | transformChanged

/-- The find-and-configure of LayerShellHandler.configure at the registry
level: update the first view matching the targeted layer, or return early. -/
def applyConfigure (vs : List DimlandView) (target : Nat) (c : LayerSurfaceConfigure) : List DimlandView :=
  match vs with
  | [] => []
  | v :: rest =>
      if v.output = target then (configureStep v c).view :: rest
      else applyConfigure rest target c |> fun tail => v :: tail

/-- Event dispatch over DimlandData: only LayerShellHandler.closed touches
the exit flag (main.rs lines 251-259); frame, scale-factor and transform
notifications are no-ops (main.rs lines 323-350). -/
def dispatch (e : DimlandEvent) (m : DimlandData) : DimlandData :=
  match e with
  | DimlandEvent.closed => ⟨m.views, true⟩
  | DimlandEvent.layerConfigure t c => ⟨applyConfigure m.views t c, m.exit⟩
  | DimlandEvent.outputAdded o => ⟨onAdded o m.views, m.exit⟩
  | DimlandEvent.outputUpdated o => ⟨onUpdated o m.views, m.exit⟩
  | DimlandEvent.outputRemoved o => ⟨onRemoved o m.views, m.exit⟩
  | DimlandEvent.frame => m
  | DimlandEvent.scaleFactorChanged => m
  | DimlandEvent.transformChanged => m

/-- The main loop (main.rs lines 68-70): the exit flag is polled before each
blocking dispatch; once set, no further event is processed. -/
def runLoop : DimlandData → List DimlandEvent → DimlandData
  | m, [] => m
  | m, e :: rest => if m.exit then m else runLoop (dispatch e m) rest

/-! Arithmetic helper lemmas about the wrapping u32 model. -/

lemma wsub_eq_sub (a b : Nat) (hba : b ≤ a) (ha : a < U32MOD) : wsub a b = a - b := by
  have hb : b < U32MOD := Nat.lt_of_le_of_lt hba ha
  unfold wsub
  rw [Nat.mod_eq_of_lt ha, Nat.mod_eq_of_lt hb]
  have h1 : a + (U32MOD - b) = a - b + U32MOD := by omega
  rw [h1, Nat.add_mod_right, Nat.mod_eq_of_lt (by omega)]

lemma wpow2_eq_sq (a : Nat) (h : a ^ 2 < U32MOD) : wpow2 a = a ^ 2 := by
  unfold wpow2
  exact Nat.mod_eq_of_lt h

lemma wadd_eq_add (a b : Nat) (h : a + b < U32MOD) : wadd a b = a + b := by
  unfold wadd
  exact Nat.mod_eq_of_lt h

lemma wdist_eq (r u v : Nat) (hu : u ≤ r) (hv : v ≤ r) (hsq : 2 * r ^ 2 < U32MOD) :
    wadd (wpow2 u) (wpow2 v) = u ^ 2 + v ^ 2 := by
  have h2m : 2 * r ^ 2 = r ^ 2 + r ^ 2 := two_mul _
  have hr2M : r ^ 2 < U32MOD :=
    Nat.lt_of_le_of_lt (by rw [h2m] at hsq ⊢; exact Nat.le_add_right _ _) hsq
  have hu2 : u ^ 2 ≤ r ^ 2 := Nat.pow_le_pow_left hu 2
  have hv2 : v ^ 2 ≤ r ^ 2 := Nat.pow_le_pow_left hv 2
  have hsum : u ^ 2 + v ^ 2 < U32MOD :=
    Nat.lt_of_le_of_lt (by rw [h2m]; exact Nat.add_le_add hu2 hv2) hsq
  rw [wpow2_eq_sq u (Nat.lt_of_le_of_lt hu2 hr2M), wpow2_eq_sq v (Nat.lt_of_le_of_lt hv2 hr2M),
    wadd_eq_add _ _ hsum]

lemma corner1_eval (r x y : Nat) (hr : r < U32MOD) (hsq : 2 * r ^ 2 < U32MOD)
    (h1 : x < r) (h2 : y < r) :
    wadd (wpow2 (wsub r x)) (wpow2 (wsub r y)) = (r - x) ^ 2 + (r - y) ^ 2 := by
  rw [wsub_eq_sub r x h1.le hr, wsub_eq_sub r y h2.le hr]
  exact wdist_eq r (r - x) (r - y) (Nat.sub_le r x) (Nat.sub_le r y) hsq

lemma corner2_eval (w r x y : Nat) (hw : w < U32MOD) (hr : r < U32MOD) (hrw : r ≤ w)
    (hx : x < w) (hsq : 2 * r ^ 2 < U32MOD) (h1 : w - r < x) (h2 : y < r) :
    wadd (wpow2 (wsub x (w - r))) (wpow2 (wsub r y)) = (x - (w - r)) ^ 2 + (r - y) ^ 2 := by
  rw [wsub_eq_sub x (w - r) h1.le (Nat.lt_trans hx hw), wsub_eq_sub r y h2.le hr]
  exact wdist_eq r (x - (w - r)) (r - y) (by omega) (Nat.sub_le r y) hsq

lemma corner3_eval (h r x y : Nat) (hh : h < U32MOD) (hr : r < U32MOD) (hrh : r ≤ h)
    (hy : y < h) (hsq : 2 * r ^ 2 < U32MOD) (h1 : x < r) (h2 : h - r < y) :
    wadd (wpow2 (wsub r x)) (wpow2 (wsub y (h - r))) = (r - x) ^ 2 + (y - (h - r)) ^ 2 := by
  rw [wsub_eq_sub r x h1.le hr, wsub_eq_sub y (h - r) h2.le (Nat.lt_trans hy hh)]
  exact wdist_eq r (r - x) (y - (h - r)) (Nat.sub_le r x) (by omega) hsq

lemma corner4_eval (w h r x y : Nat) (hw : w < U32MOD) (hh : h < U32MOD)
    (hrw : r ≤ w) (hrh : r ≤ h) (hx : x < w) (hy : y < h) (hsq : 2 * r ^ 2 < U32MOD)
    (h1 : w - r < x) (h2 : h - r < y) :
    wadd (wpow2 (wsub x (w - r))) (wpow2 (wsub y (h - r)))
      = (x - (w - r)) ^ 2 + (y - (h - r)) ^ 2 := by
  rw [wsub_eq_sub x (w - r) h1.le (Nat.lt_trans hx hw),
    wsub_eq_sub y (h - r) h2.le (Nat.lt_trans hy hh)]
  exact wdist_eq r (x - (w - r)) (y - (h - r)) (by omega) (by omega) hsq

lemma cornerCond_iff_strict (w h r x y : Nat) (hw : w < U32MOD) (hh : h < U32MOD)
    (hrw : r ≤ w) (hrh : r ≤ h) (hsq : 2 * r ^ 2 < U32MOD) (hx : x < w) (hy : y < h) :
    cornerCond w h r x y = true ↔ strictCut w h r x y := by
  have hr : r < U32MOD := Nat.lt_of_le_of_lt hrw hw
  have h2m : 2 * r ^ 2 = r ^ 2 + r ^ 2 := two_mul _
  have hr2M : r ^ 2 < U32MOD :=
    Nat.lt_of_le_of_lt (by rw [h2m] at hsq ⊢; exact Nat.le_add_right _ _) hsq
  have hr2 : wpow2 r = r ^ 2 := wpow2_eq_sq r hr2M
  have hwr : wsub w r = w - r := wsub_eq_sub w r hrw hw
  have hhr : wsub h r = h - r := wsub_eq_sub h r hrh hh
  unfold strictCut
  simp only [cornerCond, d1cond, d2cond, d3cond, d4cond, Bool.or_eq_true, Bool.and_eq_true,
    decide_eq_true_eq, hwr, hhr, hr2]
  constructor
  · rintro (((⟨⟨h1, h2⟩, h3⟩ | ⟨⟨h1, h2⟩, h3⟩) | ⟨⟨h1, h2⟩, h3⟩) | ⟨⟨h1, h2⟩, h3⟩)
    · exact Or.inl ⟨h1, h2, by rwa [corner1_eval r x y hr hsq h1 h2] at h3⟩
    · exact Or.inr (Or.inl ⟨h1, h2, by rwa [corner2_eval w r x y hw hr hrw hx hsq h1 h2] at h3⟩)
    · exact Or.inr (Or.inr (Or.inl
        ⟨h1, h2, by rwa [corner3_eval h r x y hh hr hrh hy hsq h1 h2] at h3⟩))
    · exact Or.inr (Or.inr (Or.inr
        ⟨h1, h2, by rwa [corner4_eval w h r x y hw hh hrw hrh hx hy hsq h1 h2] at h3⟩))
  · rintro (⟨h1, h2, h3⟩ | ⟨h1, h2, h3⟩ | ⟨h1, h2, h3⟩ | ⟨h1, h2, h3⟩)
    · exact Or.inl (Or.inl (Or.inl
        ⟨⟨h1, h2⟩, by rw [corner1_eval r x y hr hsq h1 h2]; exact h3⟩))
    · exact Or.inl (Or.inl (Or.inr
        ⟨⟨h1, h2⟩, by rw [corner2_eval w r x y hw hr hrw hx hsq h1 h2]; exact h3⟩))
    · exact Or.inl (Or.inr
        ⟨⟨h1, h2⟩, by rw [corner3_eval h r x y hh hr hrh hy hsq h1 h2]; exact h3⟩)
    · exact Or.inr
        ⟨⟨h1, h2⟩, by rw [corner4_eval w h r x y hw hh hrw hrh hx hy hsq h1 h2]; exact h3⟩

lemma strict_iff_spec (w h r x y : Nat) (hrw : r ≤ w) (hrh : r ≤ h)
    (hx : x < w) (hy : y < h) :
    strictCut w h r x y ↔ specCornerCut w h r x y := by
  unfold strictCut specCornerCut
  constructor
  · rintro (⟨h1, h2, h3⟩ | ⟨h1, h2, h3⟩ | ⟨h1, h2, h3⟩ | ⟨h1, h2, h3⟩)
    · exact Or.inl ⟨h1, h2, h3⟩
    · exact Or.inr (Or.inl ⟨h1.le, h2, h3⟩)
    · exact Or.inr (Or.inr (Or.inl ⟨h1, h2.le, h3⟩))
    · exact Or.inr (Or.inr (Or.inr ⟨h1.le, h2.le, h3⟩))
  · rintro (⟨h1, h2, h3⟩ | ⟨h1, h2, h3⟩ | ⟨h1, h2, h3⟩ | ⟨h1, h2, h3⟩)
    · exact Or.inl ⟨h1, h2, h3⟩
    · rcases Nat.lt_or_ge (w - r) x with hlt | hge
      · exact Or.inr (Or.inl ⟨hlt, h2, h3⟩)
      · exfalso
        have hx0 : x - (w - r) = 0 := by omega
        rw [hx0] at h3
        norm_num at h3
        exact absurd h3 (Nat.not_lt.mpr (Nat.pow_le_pow_left (Nat.sub_le r y) 2))
    · rcases Nat.lt_or_ge (h - r) y with hlt | hge
      · exact Or.inr (Or.inr (Or.inl ⟨h1, hlt, h3⟩))
      · exfalso
        have hy0 : y - (h - r) = 0 := by omega
        rw [hy0] at h3
        norm_num at h3
        exact absurd h3 (Nat.not_lt.mpr (Nat.pow_le_pow_left (Nat.sub_le r x) 2))
    · rcases Nat.lt_or_ge (w - r) x with hltx | hgex
      · rcases Nat.lt_or_ge (h - r) y with hlty | hgey
        · exact Or.inr (Or.inr (Or.inr ⟨hltx, hlty, h3⟩))
        · exfalso
          have hy0 : y - (h - r) = 0 := by omega
          rw [hy0] at h3
          norm_num at h3
          have hloc : x - (w - r) ≤ r := by omega
          exact absurd h3 (Nat.not_lt.mpr (Nat.pow_le_pow_left hloc 2))
      · exfalso
        have hx0 : x - (w - r) = 0 := by omega
        rw [hx0] at h3
        norm_num at h3
        have hloc : y - (h - r) ≤ r := by omega
        exact absurd h3 (Nat.not_lt.mpr (Nat.pow_le_pow_left hloc 2))

/-! Registry helper lemmas. -/

lemma outputsOf_onAdded (o : Nat) (vs : List DimlandView) :
    outputsOf (onAdded o vs) = outputsOf vs ++ [o] := by
  simp [outputsOf, onAdded, createView]

lemma outputsOf_replaceFirst (nv : DimlandView) :
    ∀ vs : List DimlandView, outputsOf (replaceFirst vs nv) = outputsOf vs := by
  intro vs
  induction vs with
  | nil => rfl
  | cons v t ih =>
    by_cases hc : v.output = nv.output
    · simp [replaceFirst, hc, outputsOf]
    · simp only [replaceFirst, if_neg hc, outputsOf, List.map_cons]
      simpa [outputsOf] using ih

lemma outputsOf_onUpdated (o : Nat) (vs : List DimlandView) :
    outputsOf (onUpdated o vs) = outputsOf vs :=
  outputsOf_replaceFirst (createView o) vs

lemma outputsOf_onRemoved (o : Nat) (vs : List DimlandView) :
    outputsOf (onRemoved o vs) = (outputsOf vs).filter fun z => z != o := by
  induction vs with
  | nil => rfl
  | cons v t ih =>
    by_cases hc : v.output = o
    · simp [onRemoved, outputsOf, List.filter_cons, hc] at ih ⊢
      exact ih
    · simp [onRemoved, outputsOf, List.filter_cons, hc] at ih ⊢
      exact ih

lemma registry_inv (es : List OutputEvent) :
    ∀ vs : List DimlandView, (outputsOf vs).Nodup → wfEventsB vs es = true →
      (outputsOf (runFrom vs es)).Nodup ∧
      ∀ o : Nat, o ∈ outputsOf (runFrom vs es)
        ↔ presentAfter (decide (o ∈ outputsOf vs)) es o = true := by
  induction es with
  | nil =>
    intro vs hnd _
    refine ⟨hnd, fun o => ?_⟩
    simp [runFrom, presentAfter]
  | cons e rest ih =>
    intro vs hnd hwf
    cases e with
    | added o2 =>
      rw [show wfEventsB vs (OutputEvent.added o2 :: rest)
          = ((vs.all fun v => v.output != o2) && wfEventsB (onAdded o2 vs) rest) from rfl,
        Bool.and_eq_true] at hwf
      obtain ⟨hall, hwf2⟩ := hwf
      have hno : o2 ∉ outputsOf vs := by
        intro hmem
        obtain ⟨v, hv, hvo⟩ := List.mem_map.mp hmem
        have := List.all_eq_true.mp hall v hv
        rw [bne_iff_ne] at this
        exact this hvo
      have hnd2 : (outputsOf (onAdded o2 vs)).Nodup := by
        rw [outputsOf_onAdded, List.nodup_append]
        exact ⟨hnd, List.nodup_singleton o2, List.disjoint_singleton.mpr hno⟩
      have hstep : runFrom vs (OutputEvent.added o2 :: rest) = runFrom (onAdded o2 vs) rest := rfl
      obtain ⟨hnd3, hmem3⟩ := ih (onAdded o2 vs) hnd2 hwf2
      refine ⟨by rw [hstep]; exact hnd3, fun o => ?_⟩
      rw [hstep, hmem3 o]
      have hbit : decide (o ∈ outputsOf (onAdded o2 vs))
          = (if o2 = o then true else decide (o ∈ outputsOf vs)) := by
        rw [outputsOf_onAdded]
        by_cases hc : o2 = o
        · subst hc; simp
        · rw [if_neg hc, decide_eq_decide]
          simp only [List.mem_append, List.mem_singleton]
          constructor
          · rintro (hm | hm)
            · exact hm
            · exact absurd hm.symm hc
          · exact Or.inl
      rw [show presentAfter (decide (o ∈ outputsOf vs)) (OutputEvent.added o2 :: rest) o
          = presentAfter (if o2 = o then true else decide (o ∈ outputsOf vs)) rest o from rfl,
        hbit]
    | updated o2 =>
      rw [show wfEventsB vs (OutputEvent.updated o2 :: rest)
          = wfEventsB (onUpdated o2 vs) rest from rfl] at hwf
      have hnd2 : (outputsOf (onUpdated o2 vs)).Nodup := by rwa [outputsOf_onUpdated]
      have hstep : runFrom vs (OutputEvent.updated o2 :: rest)
          = runFrom (onUpdated o2 vs) rest := rfl
      obtain ⟨hnd3, hmem3⟩ := ih (onUpdated o2 vs) hnd2 hwf
      refine ⟨by rw [hstep]; exact hnd3, fun o => ?_⟩
      rw [hstep, hmem3 o, outputsOf_onUpdated]
      rfl
    | removed o2 =>
      rw [show wfEventsB vs (OutputEvent.removed o2 :: rest)
          = wfEventsB (onRemoved o2 vs) rest from rfl] at hwf
      have hnd2 : (outputsOf (onRemoved o2 vs)).Nodup := by
        rw [outputsOf_onRemoved]
        exact List.Nodup.filter _ hnd
      have hstep : runFrom vs (OutputEvent.removed o2 :: rest)
          = runFrom (onRemoved o2 vs) rest := rfl
      obtain ⟨hnd3, hmem3⟩ := ih (onRemoved o2 vs) hnd2 hwf
      refine ⟨by rw [hstep]; exact hnd3, fun o => ?_⟩
      rw [hstep, hmem3 o]
      have hbit : decide (o ∈ outputsOf (onRemoved o2 vs))
          = (if o2 = o then false else decide (o ∈ outputsOf vs)) := by
        rw [outputsOf_onRemoved]
        by_cases hc : o2 = o
        · subst hc; simp [List.mem_filter]
        · rw [if_neg hc, decide_eq_decide]
          simp only [List.mem_filter, bne_iff_ne]
          constructor
          · rintro ⟨hm, _⟩
            exact hm
          · intro hm
            exact ⟨hm, fun hh => hc hh.symm⟩
      rw [show presentAfter (decide (o ∈ outputsOf vs)) (OutputEvent.removed o2 :: rest) o
          = presentAfter (if o2 = o then false else decide (o ∈ outputsOf vs)) rest o from rfl,
        hbit]

/-! Alpha-byte helper lemmas. -/

lemma baseColor_half : baseColor (1/2) = 0x7F000000 := by
  unfold baseColor alphaByte
  rw [show ⌊(1/2 : ℚ) * 255⌋ = 127 by norm_num]
  decide

lemma alphaByte_le_255 (a : ℚ) (ha1 : a ≤ 1) : alphaByte a ≤ 255 := by
  have hm : a * 255 ≤ 255 := by nlinarith
  have hfl : ⌊a * 255⌋ ≤ 255 :=
    calc ⌊a * 255⌋ ≤ ⌊(255 : ℚ)⌋ := Int.floor_le_floor hm
      _ = 255 := by norm_num
  unfold alphaByte
  exact Int.toNat_le.mpr (by exact_mod_cast hfl)

/-! Configure helper lemma. -/

lemma runConfigures_bound (es : List LayerSurfaceConfigure) :
    ∀ (v : DimlandView) (n : Nat),
      (es.foldl configureFold (v, n)).2 ≤ n + (if v.first_configure then 1 else 0) := by
  induction es with
  | nil =>
    intro v n
    simp [List.foldl]
  | cons c rest ih =>
    intro v n
    rw [List.foldl_cons]
    cases hv : v.first_configure with
    | true =>
      have hstep : configureFold (v, n) c
          = (⟨false, c.newWidth, c.newHeight, v.output⟩, n + 1) := by
        simp [configureFold, configureStep, draw, hv]
      rw [hstep]
      simpa using ih ⟨false, c.newWidth, c.newHeight, v.output⟩ (n + 1)
    | false =>
      have hstep : configureFold (v, n) c
          = (⟨false, c.newWidth, c.newHeight, v.output⟩, n) := by
        simp [configureFold, configureStep, draw, hv]
      rw [hstep]
      simpa using ih ⟨false, c.newWidth, c.newHeight, v.output⟩ n

/-! The claims. -/

/-- C1 as amended: the original claim (every pixel in a corner's bounding
box with squared distance to the rounding center exceeding radius^2 is
overridden to 0xFF000000, all other pixels keep the base color, with full
mirror-symmetric radius-by-radius boxes on all four corners) restricted to
the regime where the u32 distance arithmetic cannot wrap: radius at most
width and height, and 2 * radius^2 < 2^32.  The counterexample shows the
unrestricted claim false when the squaring overflows.  Under these
hypotheses the code's corner condition holds exactly on the spec's cut
region; pixels in the cut region are forced to 0xFF000000 and all others
keep the base color; and the right and bottom box bounds are symmetric to
the top-left ones under mirroring. -/
theorem c1_corner_override (w h r : Nat) (a : ℚ) (x y : Nat)
    (hw : w < U32MOD) (hh : h < U32MOD) (hrw : r ≤ w) (hrh : r ≤ h)
    (hsq : 2 * r ^ 2 < U32MOD) (hx : x < w) (hy : y < h) :
    (cornerCond w h r x y = true ↔ specCornerCut w h r x y)
    ∧ (specCornerCut w h r x y → pixelColor w h a r x y = 0xFF000000)
    ∧ (¬ specCornerCut w h r x y → pixelColor w h a r x y = baseColor a)
    ∧ ((w - r ≤ x ↔ w - 1 - x < r) ∧ (h - r ≤ y ↔ h - 1 - y < r)) := by
  have key : cornerCond w h r x y = true ↔ specCornerCut w h r x y :=
    (cornerCond_iff_strict w h r x y hw hh hrw hrh hsq hx hy).trans
      (strict_iff_spec w h r x y hrw hrh hx hy)
  refine ⟨key, ?_, ?_, by omega, by omega⟩
  · intro hs
    simp [pixelColor, key.mpr hs]
  · intro hs
    have hcc : cornerCond w h r x y = false := by
      cases hcc2 : cornerCond w h r x y with
      | false => rfl
      | true => exact absurd (key.mp hcc2) hs
    simp [pixelColor, hcc]

/-- C1 witness: at width = height = 10, radius = 3, the pixel (9, 0) lies in
the top-right cut region and is overridden to opaque black. -/
theorem c1_corner_override_witness : pixelColor 10 10 (1/2) 3 9 0 = 0xFF000000 :=
  (c1_corner_override 10 10 3 (1/2) 9 0 (by decide) (by decide) (by decide) (by decide)
    (by decide) (by decide) (by decide)).2.1 (by decide)

/-- C1 counterexample: at width = height = 131072, radius = 65536 (radius is
at most width and height, pixel (0, 0) in range), pixel (0, 0) lies in the
spec's cut region with squared distance 2 * 65536^2 > 65536^2, yet the
code's u32 squaring wraps (65536^2 is 0 mod 2^32), so the corner condition
is false and the pixel keeps the base color 0x7F000000 instead of being
overridden to 0xFF000000 — refuting the claim as stated, without the
no-overflow proviso. -/
theorem c1_overflow_counterexample :
    ((65536 ≤ 131072 ∧ (0 : Nat) < 131072)
      ∧ specCornerCut 131072 131072 65536 0 0
      ∧ cornerCond 131072 131072 65536 0 0 = false)
    ∧ pixelColor 131072 131072 (1/2) 65536 0 0 = 0x7F000000 := by
  have hcc : cornerCond 131072 131072 65536 0 0 = false := by decide
  refine ⟨⟨by decide, by decide, hcc⟩, ?_⟩
  have hpix : pixelColor 131072 131072 (1/2) 65536 0 0 = baseColor (1/2) := by
    unfold pixelColor
    rw [hcc]
    exact if_neg Bool.false_ne_true
  rw [hpix, baseColor_half]

/-- C2 counterexample: at width = height = 2, radius = 3, the in-range pixel
(1, 1) fails the top-left test, so evaluation reaches width - radius with
radius > width: the corner-condition evaluation is not underflow-free,
refuting the claim that no unsigned subtraction ever underflows. -/
theorem c2_underflow_counterexample : 1 < 2 ∧ ¬ underflowFreePixel 2 2 3 1 1 := by
  constructor
  · decide
  · decide

/-- C2 amended: the per-pixel computation is total in the wrapping-u32 model
and always yields a u32; and whenever radius ≤ width and radius ≤ height, the
evaluation of the corner conditions performs no underflowing unsigned
subtraction. -/
theorem c2_no_underflow_when_radius_fits (w h r x y : Nat) (a : ℚ)
    (hrw : r ≤ w) (hrh : r ≤ h) :
    underflowFreePixel w h r x y ∧ pixelColor w h a r x y < U32MOD := by
  constructor
  · exact Or.inr ⟨hrw, Or.inr fun _ => hrh⟩
  · unfold pixelColor
    split
    · decide
    · exact Nat.mod_lt _ (by decide)

/-- C2 witness: the amended theorem at width = height = 10, radius = 3,
pixel (0, 0), alpha = 1/2. -/
theorem c2_no_underflow_witness :
    underflowFreePixel 10 10 3 0 0 ∧ pixelColor 10 10 (1/2) 3 0 0 < U32MOD :=
  c2_no_underflow_when_radius_fits 10 10 3 0 0 (1/2) (by decide) (by decide)

/-- C3 counterexample: two added notifications for the same output identity
leave two registry entries with that identity — new_output pushes
unconditionally — refuting the claim for arbitrary notification sequences. -/
theorem c3_duplicate_add_counterexample :
    (outputsOf (runOutputEvents [OutputEvent.added 0, OutputEvent.added 0])).count 0 = 2 := by
  decide

/-- C3 amended: for every notification sequence in which no output is added
while an entry for it is already present, the registry holds exactly one
entry for each output with an observed add and no subsequent remove, and
never two entries with the same output identity. -/
theorem c3_registry_invariant (es : List OutputEvent) (hwf : wfEventsB [] es = true) :
    (outputsOf (runOutputEvents es)).Nodup
    ∧ ∀ o : Nat, (outputsOf (runOutputEvents es)).count o
        = if addedNotRemoved es o then 1 else 0 := by
  obtain ⟨hnd, hmem⟩ := registry_inv es [] (by simp [outputsOf]) hwf
  have hmem2 : ∀ o : Nat, o ∈ outputsOf (runOutputEvents es) ↔ addedNotRemoved es o = true := by
    intro o
    rw [show runOutputEvents es = runFrom [] es from rfl, hmem o]
    have : decide (o ∈ outputsOf ([] : List DimlandView)) = false := by simp [outputsOf]
    rw [this]
    rfl
  refine ⟨hnd, fun o => ?_⟩
  by_cases hp : addedNotRemoved es o = true
  · rw [if_pos hp]
    exact List.count_eq_one_of_mem hnd ((hmem2 o).mpr hp)
  · rw [if_neg hp]
    exact List.count_eq_zero.mpr fun hm => hp ((hmem2 o).mp hm)

/-- C3 witness: the amended invariant on the sequence add 1, update 1, add 2,
remove 1, evaluated at output 2. -/
theorem c3_registry_invariant_witness :
    (outputsOf (runOutputEvents
        [OutputEvent.added 1, OutputEvent.updated 1, OutputEvent.added 2,
          OutputEvent.removed 1])).count 2
      = if addedNotRemoved
          [OutputEvent.added 1, OutputEvent.updated 1, OutputEvent.added 2,
            OutputEvent.removed 1] 2 then 1 else 0 :=
  (c3_registry_invariant
    [OutputEvent.added 1, OutputEvent.updated 1, OutputEvent.added 2, OutputEvent.removed 1]
    (by decide)).2 2

/-- C4: over any configure-event history of a freshly created view, the
buffer attach-and-commit happens at most once; and a single configure step
attaches exactly when the view was still in its first_configure
(Uninitialized) state. -/
theorem c4_attach_at_most_once (o : Nat) (es : List LayerSurfaceConfigure) :
    (runConfigures (createView o) es).2 ≤ 1
    ∧ ∀ (v : DimlandView) (c : LayerSurfaceConfigure),
        (configureStep v c).attached = v.first_configure := by
  constructor
  · have hb := runConfigures_bound es (createView o) 0
    simpa [createView] using hb
  · intro v c
    cases hv : v.first_configure <;> simp [configureStep, draw, hv]

/-- C5: at width = height = 10, radius = 3, alpha = 0.5, pixel (0, 0) is cut
to 0xFF000000 while pixels (3, 3) and (5, 5) keep the base color 0x7F000000
with alpha byte 127. -/
theorem c5_concrete_pixels :
    pixelColor 10 10 (1/2) 3 0 0 = 0xFF000000
    ∧ pixelColor 10 10 (1/2) 3 3 3 = 0x7F000000
    ∧ pixelColor 10 10 (1/2) 3 5 5 = 0x7F000000 := by
  have hab : alphaByte (1/2) = 127 := by
    unfold alphaByte
    rw [show ⌊(1/2 : ℚ) * 255⌋ = 127 by norm_num]
    rfl
  have hbase : baseColor (1/2) = 0x7F000000 := by
    unfold baseColor
    rw [hab]
    decide
  refine ⟨?_, ?_, ?_⟩
  · have hc : cornerCond 10 10 3 0 0 = true := by decide
    unfold pixelColor
    rw [hc]
    simp
  · have hc : cornerCond 10 10 3 3 3 = false := by decide
    unfold pixelColor
    rw [hc]
    simpa using hbase
  · have hc : cornerCond 10 10 3 5 5 = false := by decide
    unfold pixelColor
    rw [hc]
    simpa using hbase

/-- C6: with radius 0 no corner condition ever fires and every pixel of any
buffer equals the flat base color, the alpha byte floor(alpha * 255) shifted
into bits 24..31 with the 24 low (RGB) bits zero. -/
theorem c6_radius_zero_flat (w h : Nat) (a : ℚ) (x y : Nat)
    (hw : w < U32MOD) (hx : x < w) (ha0 : 0 ≤ a) (ha1 : a ≤ 1) :
    pixelColor w h a 0 x y = alphaByte a <<< 24
    ∧ pixelColor w h a 0 x y % 2 ^ 24 = 0
    ∧ ((alphaByte a : ℤ)) = ⌊a * 255⌋ := by
  have hws : wsub w 0 = w := by
    unfold wsub
    rw [Nat.zero_mod, Nat.sub_zero, Nat.mod_eq_of_lt hw, Nat.add_mod_right,
      Nat.mod_eq_of_lt hw]
  have hxw : ¬ (w < x) := by omega
  have hccn : ¬ (cornerCond w h 0 x y = true) := by
    simp only [cornerCond, d1cond, d2cond, d3cond, d4cond, Bool.or_eq_true, Bool.and_eq_true,
      decide_eq_true_eq, hws]
    rintro (((⟨⟨h1, _⟩, _⟩ | ⟨⟨h1, _⟩, _⟩) | ⟨⟨h1, _⟩, _⟩) | ⟨⟨h1, _⟩, _⟩)
    · exact absurd h1 (Nat.not_lt_zero x)
    · exact absurd h1 hxw
    · exact absurd h1 (Nat.not_lt_zero x)
    · exact absurd h1 hxw
  have hcc : cornerCond w h 0 x y = false := Bool.eq_false_iff.mpr hccn
  have hpix : pixelColor w h a 0 x y = baseColor a := by
    unfold pixelColor
    rw [hcc]
    exact if_neg Bool.false_ne_true
  have hab : alphaByte a ≤ 255 := alphaByte_le_255 a ha1
  have hsh : alphaByte a <<< 24 < U32MOD := by
    rw [Nat.shiftLeft_eq]
    have h2 : alphaByte a * 2 ^ 24 ≤ 255 * 2 ^ 24 := Nat.mul_le_mul_right _ hab
    have h3 : (255 : Nat) * 2 ^ 24 < U32MOD := by decide
    omega
  refine ⟨?_, ?_, ?_⟩
  · rw [hpix]
    unfold baseColor
    exact Nat.mod_eq_of_lt hsh
  · rw [hpix]
    unfold baseColor
    rw [Nat.mod_eq_of_lt hsh, Nat.shiftLeft_eq]
    exact Nat.mul_mod_left _ _
  · exact Int.toNat_of_nonneg (Int.floor_nonneg.mpr (by positivity))

/-- C6 witness: the flat fill at width 5, height 9, alpha 1/2, pixel (2, 7). -/
theorem c6_radius_zero_flat_witness :
    pixelColor 5 9 (1/2) 0 2 7 = alphaByte (1/2) <<< 24 :=
  (c6_radius_zero_flat 5 9 (1/2) 2 7 (by decide) (by decide) (by norm_num) (by norm_num)).1

/-- C7: the buffer generator is a pure function — equal inputs give
byte-identical buffers — and the buffer length is exactly
width * height * 4 bytes for every input (zero when width or height is 0). -/
theorem c7_buffer_length (w h : Nat) (a : ℚ) (r : Nat) :
    (createBuffer w h a r).length = w * h * 4 ∧ createBuffer w h a r = createBuffer w h a r := by
  refine ⟨?_, rfl⟩
  unfold createBuffer
  rw [List.length_flatMap]
  have hmap : ∀ i : Nat,
      (List.length ∘ fun i =>
        toLEBytes (pixelColor w h a r (i % U32MOD % w) (i % U32MOD / w))) i = 4 := by
    intro i
    rfl
  rw [List.map_congr_left fun i _ => hmap i]
  simp [List.sum_replicate, List.map_const]

/-- C8: every configure step, from either state, writes the event payload
into the view's width and height and sets the viewport destination to that
same new size. -/
theorem c8_configure_updates_size (v : DimlandView) (c : LayerSurfaceConfigure) :
    (configureStep v c).view.width = c.newWidth
    ∧ (configureStep v c).view.height = c.newHeight
    ∧ (configureStep v c).destination = (c.newWidth, c.newHeight) := by
  cases hv : v.first_configure <;> simp [configureStep, hv]

/-- C9: from a running state, dispatching an event sets the process-wide exit
flag iff that event is a closed notification (no other event sets it), and
once the flag is set the loop processes nothing further and returns at its
next flag check. -/
theorem c9_closed_sets_exit (m : DimlandData) (e : DimlandEvent) (es : List DimlandEvent) :
    (m.exit = false → (((dispatch e m).exit = true) ↔ e = DimlandEvent.closed))
    ∧ (m.exit = true → runLoop m es = m) := by
  constructor
  · intro hm
    cases e <;> simp [dispatch, hm]
  · intro hm
    cases es with
    | nil => rfl
    | cons e rest => simp [runLoop, hm]

/-- C9 witness: a closed notification sets the flag, and a loop whose flag is
already set consumes no event. -/
theorem c9_closed_sets_exit_witness :
    (dispatch DimlandEvent.closed ⟨[], false⟩).exit = true
    ∧ runLoop ⟨[], true⟩ [DimlandEvent.frame] = ⟨[], true⟩ :=
  ⟨((c9_closed_sets_exit ⟨[], false⟩ DimlandEvent.closed []).1 rfl).mpr rfl,
    (c9_closed_sets_exit ⟨[], true⟩ DimlandEvent.frame [DimlandEvent.frame]).2 rfl⟩

/-- C10: an update notification for an output with no entry in the registry
leaves the views list unchanged — the freshly built replacement view is not
inserted and no other entry is modified. -/
theorem c10_update_unknown_noop (vs : List DimlandView) (o : Nat)
    (hnone : ∀ v ∈ vs, v.output ≠ o) : onUpdated o vs = vs := by
  induction vs with
  | nil => rfl
  | cons v t ih =>
    have hv : ¬ (v.output = (createView o).output) := by
      simpa [createView] using hnone v (List.mem_cons_self v t)
    show replaceFirst (v :: t) (createView o) = v :: t
    rw [replaceFirst, if_neg hv]
    have ht := ih fun u hu => hnone u (List.mem_cons_of_mem v hu)
    rw [show replaceFirst t (createView o) = onUpdated o t from rfl, ht]

/-- C10 witness: updating output 5 against a registry holding only output 1
is a no-op. -/
theorem c10_update_unknown_noop_witness :
    onUpdated 5 [createView 1] = [createView 1] :=
  c10_update_unknown_noop [createView 1] 5 (by decide)

end Dimland
